import Mathlib

/-!
Shallow embedding of the `valueextractor` Go package (github.com/Howard3/valueextractor).

The repository contains several historical revisions of the same files; the
embedding follows the canonical (latest) revision of each function and notes,
per definition, the source file and symbol it is translated from.  Machine
integers are modelled as `Nat`/`Int` with explicit bounds where the Go parser
enforces them; Go errors become the inductive `GoError`; fallible operations
return `Except GoError`.

Modelling notes, fixed once here:
* Go `error` values produced by this package are closed under the constructors
  of `GoError` below.  Sentinel errors created with `errors.New` are compared
  by identity in Go; each sentinel gets its own constructor, so constructor
  equality is identity.
* `fmt.Errorf("...: %v", err)` formats the cause into the message and does not
  expose `Unwrap`; it is modelled by `fmtMsgV` (not traversed by `goErrorsIs`).
  `fmt.Errorf("%s: %w", key, err)` wraps; it is modelled by `fmtKeyW`.
* `errors.Join` is only called with the arities used in this repository:
  `Join(nil, e)` (one non-nil argument) and `Join(a, e)` with both non-nil;
  these become `join1` and `join2`.
* Go converters receive a `*Extractor` back-reference that no built-in
  converter uses; the spec describes converters as pure functions, so the
  embedding's `Converter` omits that argument.
* IEEE-754 rounding and `strconv`'s `ErrRange` for `ParseFloat` are not
  modelled: the float embedding keeps the exactly-parsed value.  No claim
  settled here depends on float rounding or float range errors.
-/

deriving instance DecidableEq for Except

namespace ValueExtractor

/-- Reason field of a `strconv.NumError`: `strconv.ErrSyntax` or `strconv.ErrRange`. -/
inductive NumReason where
  | invalidSyntax
  | outOfRange
deriving DecidableEq

/-- Go error values produced or consumed by this package.  `errNotFound`,
`errRequestNil` and `errRequestParseForm` are the package's `errors.New`
sentinels (src/extractors.go lines 10-11 and 46-47); `numError` is a
`strconv.NumError`; `external` stands for an arbitrary platform error
(for example a failure of the platform body parser). -/
inductive GoError where
  | errNotFound
  | errRequestNil
  | errRequestParseForm
  | numError (fn : String) (num : String) (reason : NumReason)
  | fmtMsgV (pre : String) (cause : GoError)
  | fmtKeyW (key : String) (cause : GoError)
  | join1 (e : GoError)
  | join2 (a b : GoError)
  | external (tag : String)
deriving DecidableEq

/-- Embedding of Go `errors.Is(e, target)` for the error values of this
package: identity at each level, unwrapping through `%w` wraps and through
`errors.Join` members; `fmtMsgV` (`%v`) exposes no `Unwrap`. -/
def goErrorsIs : GoError → GoError → Bool
  | e@(.join1 a), target => e == target || goErrorsIs a target
  | e@(.join2 a b), target => e == target || goErrorsIs a target || goErrorsIs b target
  | e@(.fmtKeyW _ cause), target => e == target || goErrorsIs cause target
  | e, target => e == target

/-- ErrorType from the package's error file (reproduced in src/README.md):
the two kinds of recorded failure. -/
inductive ErrorType where
  | ExtractError
  | ConvertError
deriving DecidableEq

/-- Error is the package's recorded-failure type: kind, offending key and
underlying cause (unexported fields `eType`, `key`, `err`). -/
structure Error where
  eType : ErrorType
  key : String
  err : GoError
deriving DecidableEq

/-- NewExtractError (error file): an ExtractError-kind record. -/
def NewExtractError (key : String) (err : GoError) : Error :=
  ⟨ErrorType.ExtractError, key, err⟩

/-- NewConvertError (error file): a ConvertError-kind record. -/
def NewConvertError (key : String) (err : GoError) : Error :=
  ⟨ErrorType.ConvertError, key, err⟩

/-- Converter (src/converters.go line 9): takes the raw string and either
yields the value to write into the destination or fails.  The Go version
writes through a pointer and returns `error`; success here carries the
written value. -/
def Converter (α : Type) : Type :=
  String → Except GoError α

/-- Extractor (src/extractor.go lines 9-14, canonical revision): the bound
source, the accumulated error records, and the construction-time optional
key set. -/
structure Extractor where
  extractor : String → Except GoError String
  errors : List Error := []
  optionalKeys : List String := []

/-- WithOptionalKeys (src/extractor.go lines 16-20). -/
def WithOptionalKeys (keys : List String) : Extractor → Extractor :=
  fun ex => { ex with optionalKeys := keys }

/-- isOptional (src/extractor.go lines 22-30): linear scan of the optional
key set. -/
def isOptional (ex : Extractor) (key : String) : Bool :=
  ex.optionalKeys.any (fun k => k == key)

/-- AddExtractError (src/extractor.go lines 48-51): append at the end of the
chain. -/
def Extractor.AddExtractError (ec : Extractor) (key : String) (err : GoError) : Extractor :=
  { ec with errors := ec.errors ++ [NewExtractError key err] }

/-- AddConvertError (src/extractor.go lines 53-56): append at the end of the
chain. -/
def Extractor.AddConvertError (ec : Extractor) (key : String) (err : GoError) : Extractor :=
  { ec with errors := ec.errors ++ [NewConvertError key err] }

/-- With (src/extractor.go lines 32-46, canonical revision): look up the key;
a NotFound lookup failure on an optional key is skipped, any other lookup
failure is recorded as an extract error, a converter failure as a convert
error.  Returns the new state and the destination after the call (the Go
converter writes the destination through a pointer only on success). -/
def Extractor.With {α : Type} (ec : Extractor) (key : String) (converter : Converter α)
    (dest : α) : Extractor × α :=
  match ec.extractor key with
  | .error err =>
      if goErrorsIs err GoError.errNotFound && isOptional ec key then (ec, dest)
      else (ec.AddExtractError key err, dest)
  | .ok str =>
      match converter str with
      | .error err => (ec.AddConvertError key err, dest)
      | .ok v => (ec, v)

/-- WithOptional (src/extractor.go lines 27-42 of the WithOptional revision):
like With but swallows a NotFound lookup failure unconditionally. -/
def Extractor.WithOptional {α : Type} (ec : Extractor) (key : String) (converter : Converter α)
    (dest : α) : Extractor × α :=
  match ec.extractor key with
  | .error err =>
      if goErrorsIs err GoError.errNotFound then (ec, dest)
      else (ec.AddExtractError key err, dest)
  | .ok str =>
      match converter str with
      | .error err => (ec.AddConvertError key err, dest)
      | .ok v => (ec, v)

/-- Using (src/extractor.go lines 58-66): build an extractor over a source and
apply the construction options in order. -/
def Using (extractor : String → Except GoError String)
    (options : List (Extractor → Extractor)) : Extractor :=
  options.foldl (fun ex o => o ex) { extractor := extractor }

/-- Errors (src/extractor.go lines 68-75): `nil` (here `none`) when no error
was recorded, otherwise the accumulated list. -/
def Extractor.Errors (ec : Extractor) : Option (List Error) :=
  if ec.errors.isEmpty then none else some ec.errors

/-- Accumulation step of JoinedErrors: `errors.Join(acc, e)` where `acc` may
be nil; Join wraps its non-nil arguments. -/
def goJoinAcc (acc : Option GoError) (e : GoError) : GoError :=
  match acc with
  | none => GoError.join1 e
  | some a => GoError.join2 a e

/-- JoinedErrors (src/extractor.go lines 77-89, canonical revision): fold the
error records into one joined error, each wrapped as `fmt.Errorf("%s: %w",
e.key, e.err)`. -/
def Extractor.JoinedErrors (ec : Extractor) : Option GoError :=
  if ec.errors.isEmpty then none
  else ec.errors.foldl (fun acc e => some (goJoinAcc acc (GoError.fmtKeyW e.key e.err))) none

/-- Go byte ordering on a char: ASCII decimal digit test used by strconv. -/
def isDigitChar (c : Char) : Bool :=
  '0' ≤ c && c ≤ '9'

/-- Digit accumulation loop of `strconv.ParseUint(s, 10, 64)`: consume every
character, failing on the first non-digit.  strconv checks the 64-bit cutoff
per digit and returns MaxUint64 alongside ErrRange; acceptance is identical
to accumulating exactly and checking the bound at the end, and the value
returned alongside an error is never used by this package. -/
def parseDigits : List Char → Nat → Option Nat
  | [], acc => some acc
  | c :: cs, acc =>
      if isDigitChar c then parseDigits cs (acc * 10 + (c.toNat - 48)) else none

/-- Embedding of `strconv.ParseUint(s, 10, 64)`: base-10 digits only (no sign,
no underscores with an explicit base), whole string, value below `2^64`. -/
def goParseUint (s : String) : Except GoError Nat :=
  if s.data.isEmpty then .error (.numError "ParseUint" s .invalidSyntax)
  else
    match parseDigits s.data 0 with
    | none => .error (.numError "ParseUint" s .invalidSyntax)
    | some n =>
        if n < 2 ^ 64 then .ok n else .error (.numError "ParseUint" s .outOfRange)

/-- Body of `strconv.ParseInt(s, 10, 64)` after the sign has been stripped:
the ParseUint digit loop on the remaining characters (its 64-bit range
failure carried through), then the signed 64-bit cutoff checks.  `s` is the
original string used in error values, `neg` the sign, `rest` the remaining
characters. -/
def goParseIntCore (s : String) (neg : Bool) (rest : List Char) : Except GoError Int :=
  if rest.isEmpty then .error (.numError "ParseInt" s .invalidSyntax)
  else
    match parseDigits rest 0 with
    | none => .error (.numError "ParseInt" s .invalidSyntax)
    | some un =>
        if un ≥ 2 ^ 64 then .error (.numError "ParseInt" s .outOfRange)
        else if !neg && un ≥ 2 ^ 63 then .error (.numError "ParseInt" s .outOfRange)
        else if neg && un > 2 ^ 63 then .error (.numError "ParseInt" s .outOfRange)
        else .ok (if neg then -(un : Int) else (un : Int))

/-- Embedding of `strconv.ParseInt(s, 10, 64)`: optional single leading sign,
then the stripped-body core. -/
def goParseInt (s : String) : Except GoError Int :=
  match s.data with
  | [] => .error (.numError "ParseInt" s .invalidSyntax)
  | c :: cs =>
      goParseIntCore s (c == '-') (if c == '+' || c == '-' then cs else c :: cs)

/-- Embedding of `strconv.ParseBool`: the exact twelve accepted literals. -/
def goParseBool (s : String) : Except GoError Bool :=
  if s == "1" || s == "t" || s == "T" || s == "true" || s == "TRUE" || s == "True" then
    .ok true
  else if s == "0" || s == "f" || s == "F" || s == "false" || s == "FALSE" || s == "False" then
    .ok false
  else .error (.numError "ParseBool" s .invalidSyntax)

/-- AsString (src/converters.go lines 12-18): copy the raw value, never fails. -/
def AsString : Converter String :=
  fun value => .ok value

/-- AsUint64 (src/converters.go lines 20-30): ParseUint, failure message
`invalid uint value: <err>` built with `%v`. -/
def AsUint64 : Converter Nat :=
  fun value =>
    match goParseUint value with
    | .error err => .error (.fmtMsgV "invalid uint value" err)
    | .ok parsed => .ok parsed

/-- AsInt64 (src/converters.go lines 32-43): ParseInt, failure message
`invalid int value: <err>` built with `%v`. -/
def AsInt64 : Converter Int :=
  fun value =>
    match goParseInt value with
    | .error err => .error (.fmtMsgV "invalid int value" err)
    | .ok parsed => .ok parsed

/-- AsBool (src/unnamed/part_001 lines 88-100): ParseBool, failure message
`invalid bool value: <err>` built with `%v`. -/
def AsBool : Converter Bool :=
  fun value =>
    match goParseBool value with
    | .error err => .error (.fmtMsgV "invalid bool value" err)
    | .ok parsed => .ok parsed

/-- MapExtractor (src/extractors.go lines 18-19): a Go `map[string]string`,
modelled as an association list with pairwise-distinct keys looked up by
first match. -/
abbrev MapExtractor : Type := List (String × String)

/-- MapExtractor.Get (src/extractors.go lines 21-30): found is determined by
key presence; a present empty value is returned as `""`. -/
def MapExtractor.Get (m : MapExtractor) (key : String) : Except GoError String :=
  match m.find? (fun p => p.1 == key) with
  | none => .error GoError.errNotFound
  | some p => .ok p.2

/-- Parsed `url.Values`: key to multivalue. -/
abbrev UrlValues : Type := List (String × List String)

/-- Embedding of `net/url.Values.Get`: first value of the key, or `""` when
the key is absent or has no values. -/
def urlValuesGet (v : UrlValues) (key : String) : String :=
  match v.find? (fun p => p.1 == key) with
  | none => ""
  | some p =>
      match p.2 with
      | [] => ""
      | x :: _ => x

/-- QueryExtractor (src/extractors.go lines 32-35). -/
structure QueryExtractor where
  Query : UrlValues

/-- QueryExtractor.Get (src/extractors.go lines 37-44): an empty first value
and an absent key are both mapped to ErrNotFound. -/
def QueryExtractor.Get (qe : QueryExtractor) (key : String) : Except GoError String :=
  let value := urlValuesGet qe.Query key
  if value == "" then .error GoError.errNotFound else .ok value

/-- Values a float64 destination can hold after parsing.  The embedding keeps
the exactly-parsed value (see the module comment on rounding and range). -/
inductive FloatVal where
  | finite (q : ℚ)
  | inf (neg : Bool)
  | nan
deriving DecidableEq

instance : Inhabited FloatVal := ⟨FloatVal.finite 0⟩

/-- Byte lowering used by strconv: set bit 5 (`c | 0x20`). -/
def lowerC (c : Char) : Char :=
  Char.ofNat (c.toNat ||| 32)

/-- strconv's commonPrefixLenIgnoreCase: length of the common prefix of `s`
and the (lowercase) pattern, comparing case-insensitively. -/
def cpLenIC : List Char → List Char → Nat
  | c :: s, q :: p => if lowerC c == q then cpLenIC s p + 1 else 0
  | _, _ => 0

/-- strconv's special(): recognize Inf/Infinity (optionally signed) and NaN
(unsigned; the sign branch falls through to the infinity check only),
returning the value and the number of characters consumed. -/
def special (cs : List Char) : Option (FloatVal × Nat) :=
  match cs with
  | [] => none
  | c :: rest =>
      if c == '+' || c == '-' then
        let n := cpLenIC rest "infinity".data
        if n == 3 || n == 8 then some (FloatVal.inf (c == '-'), 1 + n) else none
      else if c == 'i' || c == 'I' then
        let n := cpLenIC cs "infinity".data
        if n == 3 || n == 8 then some (FloatVal.inf false, n) else none
      else if c == 'n' || c == 'N' then
        if cpLenIC cs "nan".data == 3 then some (FloatVal.nan, 3) else none
      else none

/-- Hexadecimal letter digit (a-f, case-insensitive). -/
def isHexLetter (c : Char) : Bool :=
  'a' ≤ lowerC c && lowerC c ≤ 'f'

/-- Digit value of a char in the mantissa base (10 or 16). -/
def digitVal (base : Nat) (c : Char) : Option Nat :=
  if isDigitChar c then some (c.toNat - 48)
  else if base == 16 && isHexLetter c then some ((lowerC c).toNat - 97 + 10)
  else none

/-- Mantissa scan state of strconv's readFloat.  strconv tracks a capped
64-bit mantissa plus a decimal-point offset; the embedding accumulates every
digit exactly, which yields the same acceptance and the same mathematical
value (digit-count capping only affects IEEE rounding, out of scope). -/
structure MantState where
  acc : Nat
  fracDigits : Nat
  sawdot : Bool
  sawdigits : Bool
  underscores : Bool

/-- Mantissa loop of readFloat: consume digits, one dot, and underscores,
stopping (leaving the rest unconsumed) at the first other character or at a
second dot. -/
def mantLoop (base : Nat) : List Char → MantState → MantState × List Char
  | [], st => (st, [])
  | c :: cs, st =>
      if c == '_' then mantLoop base cs { st with underscores := true }
      else if c == '.' then
        if st.sawdot then (st, c :: cs)
        else mantLoop base cs { st with sawdot := true }
      else
        match digitVal base c with
        | some d =>
            mantLoop base cs
              { st with
                acc := st.acc * base + d,
                fracDigits := if st.sawdot then st.fracDigits + 1 else st.fracDigits,
                sawdigits := true }
        | none => (st, c :: cs)

/-- Exponent digit loop of readFloat: digits and underscores.  strconv stops
growing the value at 10000 (only to cap the eventual range error, which is
not modelled); the embedding keeps the exact exponent. -/
def expLoop : List Char → Nat → Bool → Nat × Bool × List Char
  | [], e, u => (e, u, [])
  | c :: cs, e, u =>
      if isDigitChar c then expLoop cs (e * 10 + (c.toNat - 48)) u
      else if c == '_' then expLoop cs e true
      else (e, u, c :: cs)

/-- Sign-stripped body of the exponent phase: a nonempty digit sequence read
by the exponent digit loop, or readFloat's not-ok return for a dangling or
malformed exponent. -/
def readExpBody (esign : Int) (body : List Char) (u : Bool) :
    Option (Bool × Int × Bool × List Char) :=
  match body with
  | [] => none
  | b :: _ =>
      if isDigitChar b then
        some (true, esign * ((expLoop body 0 u).1 : Int), (expLoop body 0 u).2.1,
          (expLoop body 0 u).2.2)
      else none

/-- Exponent phase of readFloat: if the next character is the exponent
character, require an optionally-signed nonempty digit sequence; otherwise
consume nothing.  Returns whether an exponent was read, its signed value,
the underscore flag, and the rest. -/
def readExp (expChar : Char) (cs : List Char) (underscores : Bool) :
    Option (Bool × Int × Bool × List Char) :=
  match cs with
  | [] => some (false, 0, underscores, [])
  | c :: cs1 =>
      if lowerC c == expChar then
        match cs1 with
        | [] => none
        | d :: ds =>
            readExpBody (if d == '-' then -1 else 1)
              (if d == '+' || d == '-' then ds else d :: ds) underscores
      else some (false, 0, underscores, c :: cs1)

/-- Scan state of strconv's underscoreOK: the class of the last character
seen (start of number, digit or base prefix, underscore, other). -/
def uOKloop (hex : Bool) : List Char → Char → Bool
  | [], saw => saw != '_'
  | c :: cs, saw =>
      if isDigitChar c || (hex && isHexLetter c) then uOKloop hex cs '0'
      else if c == '_' then
        if saw != '0' then false else uOKloop hex cs '_'
      else if saw == '_' then false
      else uOKloop hex cs '!'

/-- strconv's underscoreOK: underscores may appear only between digits or
between a base prefix and a digit. -/
def underscoreOK (cs : List Char) : Bool :=
  let cs1 : List Char :=
    match cs with
    | c :: rest => if c == '-' || c == '+' then rest else c :: rest
    | [] => []
  match cs1 with
  | a :: b :: rest =>
      if a == '0' && lowerC b == 'x' then uOKloop true rest '0'
      else uOKloop false cs1 '^'
  | _ => uOKloop false cs1 '^'

/-- Mantissa-and-exponent stage of readFloat, restricted to acceptance of the
whole string: a mantissa with at least one digit, a mandatory p-exponent for
hex and an optional e-exponent for decimal, nothing left over, and the
underscore placement check over the original (fully consumed) string
`orig`. -/
def readFloatBody (neg : Bool) (orig : List Char) (base : Nat) (afterBase : List Char) :
    Option FloatVal :=
  let r := mantLoop base afterBase ⟨0, 0, false, false, false⟩
  if !r.1.sawdigits then none
  else
    match readExp (if base == 16 then 'p' else 'e') r.2 r.1.underscores with
    | none => none
    | some (hadExp, e, u2, rest2) =>
        if base == 16 && !hadExp then none
        else if !rest2.isEmpty then none
        else if u2 && !underscoreOK orig then none
        else
          let mant : ℚ := (r.1.acc : ℚ) / ((base : ℚ) ^ r.1.fracDigits)
          let scale : ℚ := if base == 16 then (2 : ℚ) ^ e else (10 : ℚ) ^ e
          some (FloatVal.finite ((if neg then (-1 : ℚ) else 1) * mant * scale))

/-- Base-selection stage of readFloat: detect the `0x`/`0X` prefix (which
needs at least one character after it) and continue with base 16 on the
remainder, or base 10 on the sign-stripped input. -/
def readFloatSigned (neg : Bool) (orig afterSign : List Char) : Option FloatVal :=
  match afterSign with
  | a :: b :: rest2 =>
      if a == '0' && lowerC b == 'x' && !rest2.isEmpty then
        readFloatBody neg orig 16 rest2
      else readFloatBody neg orig 10 afterSign
  | _ => readFloatBody neg orig 10 afterSign

/-- Decimal/hexadecimal branch of `strconv.ParseFloat(s, 64)` restricted to
acceptance of the whole string: optional sign, then base selection, mantissa
and exponent. -/
def readFloatAll (cs : List Char) : Option FloatVal :=
  match cs with
  | [] => none
  | c0 :: rest0 =>
      readFloatSigned (c0 == '-') cs (if c0 == '+' || c0 == '-' then rest0 else c0 :: rest0)

/-- Embedding of `strconv.ParseFloat(s, 64)`: the special Inf/NaN forms, or
the numeric grammar, in both cases consuming the entire string. -/
def goParseFloat (s : String) : Except GoError FloatVal :=
  match special s.data with
  | some (v, n) =>
      if n == s.data.length then .ok v
      else .error (.numError "ParseFloat" s .invalidSyntax)
  | none =>
      match readFloatAll s.data with
      | some v => .ok v
      | none => .error (.numError "ParseFloat" s .invalidSyntax)

/-- Success test on a fallible result (Go's `err == nil`). -/
def exceptIsOk {ε α : Type _} : Except ε α → Bool
  | .ok _ => true
  | .error _ => false

/-- AsFloat64 (src/unnamed/part_001 lines 69-80): ParseFloat, failure message
`invalid float value: <err>` built with `%v`. -/
def AsFloat64 : Converter FloatVal :=
  fun value =>
    match goParseFloat value with
    | .error err => .error (.fmtMsgV "invalid float value" err)
    | .ok parsed => .ok parsed

/-- Result (src/extractor.go lines 96-105): declare a zero-valued destination,
forward to With, return the destination.  The Go `ResultConverter` wraps the
destination pointer; in the embedding the converter already returns the
written value, and `default` is the Go zero value of every destination type
used by this package. -/
def Result {α : Type} [Inhabited α] (ex : Extractor) (key : String)
    (converter : Converter α) : Extractor × α :=
  ex.With key converter default

/-- ResultPtr (src/extractor.go lines 107-115): as Result, returning the
destination by reference; dereferencing collapses in the embedding. -/
def ResultPtr {α : Type} [Inhabited α] (ex : Extractor) (key : String)
    (converter : Converter α) : Extractor × α :=
  ex.With key converter default

/-- ResultOptional (src/extractor.go lines 96-101 of the WithOptional
revision): as Result, forwarding to WithOptional. -/
def ResultOptional {α : Type} [Inhabited α] (ex : Extractor) (key : String)
    (converter : Converter α) : Extractor × α :=
  ex.WithOptional key converter default

/-- ReturnString (src/unnamed/part_001 lines 15-19). -/
def ReturnString (ec : Extractor) (key : String) : Extractor × String :=
  ec.With key AsString ""

/-- ReturnUint64 (src/unnamed/part_001 lines 41-46). -/
def ReturnUint64 (ec : Extractor) (key : String) : Extractor × Nat :=
  ec.With key AsUint64 0

/-- ReturnInt64 (src/unnamed/part_001 lines 62-67): the source passes the
literal key `"age"` to With, not the `key` parameter. -/
def ReturnInt64 (ec : Extractor) (key : String) : Extractor × Int :=
  ec.With "age" AsInt64 0

/-- ReturnFloat64 (src/unnamed/part_001 lines 82-87): the source passes the
literal key `"age"` to With, not the `key` parameter. -/
def ReturnFloat64 (ec : Extractor) (key : String) : Extractor × FloatVal :=
  ec.With "age" AsFloat64 default

/-- ReturnBool (src/unnamed/part_001 lines 102-107): the source passes the
literal key `"age"` to With, not the `key` parameter. -/
def ReturnBool (ec : Extractor) (key : String) : Extractor × Bool :=
  ec.With "age" AsBool false

/-- Embedding of `strings.HasPrefix(s, pre)`.  Both the needle used by this
package and well-formed UTF-8 make the Go byte-prefix test coincide with the
character-prefix test. -/
def strHasPre (s pre : String) : Bool :=
  pre.data.isPrefixOf s.data

/-- The slice of `net/http.Request` state this package touches: the declared
Content-Type header, the outcomes of the two platform body parsers (external
collaborators, modelled as recorded outcomes), and the form-value lookup
available after a successful parse. -/
structure GoRequest where
  contentType : String
  parseMultipartForm : Except GoError Unit
  parseForm : Except GoError Unit
  formValue : String → String

/-- FormExtractor (src/extractors.go lines 49-54).  The `getter` field is
resolved to `Request.FormValue` on both parse paths of the canonical
revision, so it is not carried separately. -/
structure FormExtractor where
  Request : Option GoRequest
  parsed : Bool := false

/-- isMultipart (src/extractors.go lines 56-60): prefix test on the declared
Content-Type header.  The Go method dereferences `Request`; it is only
called after Get's nil check, and an absent request is mapped to `false`
here. -/
def FormExtractor.isMultipart (fe : FormExtractor) : Bool :=
  match fe.Request with
  | some req => strHasPre req.contentType "multipart/form-data"
  | none => false

/-- ensureParsed (src/extractors.go lines 62-84): parse the body once; on the
multipart prefix use the multipart parser, otherwise the url-encoded parser;
a failure is wrapped as `errors.Join(ErrRequestParseForm, err)` and leaves
the parsed flag unset.  The request argument is the value of `fe.Request`,
whose presence Get has checked.  The third component counts underlying
body-parse attempts made by this call (0 or 1). -/
def FormExtractor.ensureParsed (fe : FormExtractor) (req : GoRequest) :
    Except GoError Unit × FormExtractor × Nat :=
  if fe.parsed then (.ok (), fe, 0)
  else if strHasPre req.contentType "multipart/form-data" then
    match req.parseMultipartForm with
    | .error e => (.error (.join2 .errRequestParseForm e), fe, 1)
    | .ok _ => (.ok (), { fe with parsed := true }, 1)
  else
    match req.parseForm with
    | .error e => (.error (.join2 .errRequestParseForm e), fe, 1)
    | .ok _ => (.ok (), { fe with parsed := true }, 1)

/-- Get (src/extractors.go lines 86-102): nil request is ErrRequestNil; then
ensure the body is parsed; an empty form value maps to ErrNotFound.  Returns
the result, the updated extractor state, and the number of body-parse
attempts made by this call. -/
def FormExtractor.Get (fe : FormExtractor) (key : String) :
    Except GoError String × FormExtractor × Nat :=
  match fe.Request with
  | none => (.error GoError.errRequestNil, fe, 0)
  | some req =>
      match fe.ensureParsed req with
      | (.error e, fe2, n) => (.error e, fe2, n)
      | (.ok _, fe2, n) =>
          let value := req.formValue key
          if value == "" then (.error GoError.errNotFound, fe2, n)
          else (.ok value, fe2, n)

/-- Harness: run a sequence of form Gets, threading state and summing the
body-parse attempts. -/
def runGets (fe : FormExtractor) : List String → FormExtractor × Nat
  | [] => (fe, 0)
  | k :: ks =>
      let r := fe.Get k
      let rest := runGets r.2.1 ks
      (rest.1, r.2.2 + rest.2)

/-- Harness: one orchestrator call of an extraction sequence — the key, which
of With/WithOptional is called, and the converter (over a fixed destination
type, which the error bookkeeping never inspects). -/
structure Call where
  key : String
  useOptional : Bool
  conv : Converter String

/-- Harness: run a sequence of With/WithOptional calls in order. -/
def runCalls (ec : Extractor) : List Call → Extractor
  | [] => ec
  | c :: cs =>
      runCalls
        (if c.useOptional then (ec.WithOptional c.key c.conv "").1
         else (ec.With c.key c.conv "").1) cs

/-- Specification-side view of the single error record (if any) one call
produces, as a function of the source, the optional-key set and the call. -/
def callError (src : String → Except GoError String) (optKeys : List String) (c : Call) :
    Option Error :=
  match src c.key with
  | .error err =>
      if goErrorsIs err GoError.errNotFound &&
          (c.useOptional || optKeys.any (fun k => k == c.key)) then none
      else some (NewExtractError c.key err)
  | .ok str =>
      match c.conv str with
      | .error err => some (NewConvertError c.key err)
      | .ok _ => none

/-- Leaves of a joined error, left to right; `join1`/`join2` nodes flatten,
everything else is a leaf. -/
def joinFlatten : GoError → List GoError
  | .join1 e => joinFlatten e
  | .join2 a b => joinFlatten a ++ joinFlatten b
  | e => [e]

/-- Base-10 value of a digit string, the closed form of the ParseUint digit
loop. -/
def digitsVal (cs : List Char) : Nat :=
  cs.foldl (fun a c => a * 10 + (c.toNat - 48)) 0

/-- Characters that can appear in a string accepted by the ParseFloat
grammar: digits, signs, dot, underscore, and letters (exponent markers, the
hex prefix, hex digits, and the Inf/Infinity/NaN spellings).  Whitespace is
not among them, which is how the no-trimming property is stated. -/
def floatChar (c : Char) : Bool :=
  isDigitChar c || c == '+' || c == '-' || c == '.' || c == '_'
    || ('a' ≤ lowerC c && lowerC c ≤ 'z')

/-! Helper lemmas shared by the claim theorems. -/

theorem With_get_error {α : Type} (ec : Extractor) (key : String) (conv : Converter α)
    (dest : α) (e : GoError) (h : ec.extractor key = Except.error e) :
    ec.With key conv dest =
      if goErrorsIs e GoError.errNotFound && isOptional ec key then (ec, dest)
      else ({ ec with errors := ec.errors ++ [NewExtractError key e] }, dest) := by
  unfold Extractor.With
  rw [h]
  rfl

theorem WithOptional_get_error {α : Type} (ec : Extractor) (key : String) (conv : Converter α)
    (dest : α) (e : GoError) (h : ec.extractor key = Except.error e) :
    ec.WithOptional key conv dest =
      if goErrorsIs e GoError.errNotFound then (ec, dest)
      else ({ ec with errors := ec.errors ++ [NewExtractError key e] }, dest) := by
  unfold Extractor.WithOptional
  rw [h]
  rfl

theorem With_get_ok {α : Type} (ec : Extractor) (key s : String) (conv : Converter α)
    (dest : α) (h : ec.extractor key = Except.ok s) :
    ec.With key conv dest =
      match conv s with
      | .error e => ({ ec with errors := ec.errors ++ [NewConvertError key e] }, dest)
      | .ok v => (ec, v) := by
  unfold Extractor.With
  rw [h]
  rfl

theorem WithOptional_get_ok {α : Type} (ec : Extractor) (key s : String) (conv : Converter α)
    (dest : α) (h : ec.extractor key = Except.ok s) :
    ec.WithOptional key conv dest =
      match conv s with
      | .error e => ({ ec with errors := ec.errors ++ [NewConvertError key e] }, dest)
      | .ok v => (ec, v) := by
  unfold Extractor.WithOptional
  rw [h]
  rfl

theorem goErrorsIs_notFound_self : goErrorsIs GoError.errNotFound GoError.errNotFound = true := by
  decide

theorem goErrorsIs_fmtMsgV (p : String) (c t : GoError) :
    goErrorsIs (GoError.fmtMsgV p c) t = (GoError.fmtMsgV p c == t) := by
  rfl

theorem fmtMsgV_notFound_false (p : String) (c : GoError) :
    ((GoError.fmtMsgV p c == GoError.errNotFound) = false)
    ∧ goErrorsIs (GoError.fmtMsgV p c) GoError.errNotFound = false := by
  refine ⟨by simp, ?_⟩
  rw [goErrorsIs_fmtMsgV]
  simp

theorem AsUint64_error_shape (s : String) (e : GoError) (h : AsUint64 s = Except.error e) :
    ∃ e0, e = GoError.fmtMsgV "invalid uint value" e0 := by
  unfold AsUint64 at h
  cases h0 : goParseUint s <;> rw [h0] at h <;> simp at h
  exact ⟨_, h.symm⟩

theorem AsInt64_error_shape (s : String) (e : GoError) (h : AsInt64 s = Except.error e) :
    ∃ e0, e = GoError.fmtMsgV "invalid int value" e0 := by
  unfold AsInt64 at h
  cases h0 : goParseInt s <;> rw [h0] at h <;> simp at h
  exact ⟨_, h.symm⟩

theorem AsFloat64_error_shape (s : String) (e : GoError) (h : AsFloat64 s = Except.error e) :
    ∃ e0, e = GoError.fmtMsgV "invalid float value" e0 := by
  unfold AsFloat64 at h
  cases h0 : goParseFloat s <;> rw [h0] at h <;> simp at h
  exact ⟨_, h.symm⟩

theorem AsBool_error_shape (s : String) (e : GoError) (h : AsBool s = Except.error e) :
    ∃ e0, e = GoError.fmtMsgV "invalid bool value" e0 := by
  unfold AsBool at h
  cases h0 : goParseBool s <;> rw [h0] at h <;> simp at h
  exact ⟨_, h.symm⟩

/-! Claim theorems. -/

/-- C1: for every key absent from the Source (lookup fails with ErrNotFound),
an optional declaration — either the construction-time optional set consulted
by With, or the WithOptional call form — records no error and leaves the
destination at the value the caller passed in; a non-optional With appends
exactly one extract error tagged with that key whose cause is ErrNotFound;
and a Source error that is not ErrNotFound is always recorded, by With and by
WithOptional alike. -/
theorem c1_absent_key_policy {α : Type} (ec : Extractor) (key : String)
    (conv : Converter α) (dest : α)
    (habs : ec.extractor key = Except.error GoError.errNotFound) :
    (isOptional ec key = true → ec.With key conv dest = (ec, dest))
    ∧ (ec.WithOptional key conv dest = (ec, dest))
    ∧ (isOptional ec key = false →
        ec.With key conv dest =
          ({ ec with errors := ec.errors ++ [NewExtractError key GoError.errNotFound] }, dest))
    ∧ (∀ (ec2 : Extractor) (e : GoError), goErrorsIs e GoError.errNotFound = false →
        ec2.extractor key = Except.error e →
        ec2.With key conv dest =
            ({ ec2 with errors := ec2.errors ++ [NewExtractError key e] }, dest)
          ∧ ec2.WithOptional key conv dest =
            ({ ec2 with errors := ec2.errors ++ [NewExtractError key e] }, dest)) := by
  refine ⟨?_, ?_, ?_, ?_⟩
  · intro hopt
    rw [With_get_error ec key conv dest _ habs, goErrorsIs_notFound_self, hopt]
    simp
  · rw [WithOptional_get_error ec key conv dest _ habs, goErrorsIs_notFound_self]
    simp
  · intro hopt
    rw [With_get_error ec key conv dest _ habs, goErrorsIs_notFound_self, hopt]
    simp
  · intro ec2 e he hget
    constructor
    · rw [With_get_error ec2 key conv dest _ hget, he]
      simp
    · rw [WithOptional_get_error ec2 key conv dest _ hget, he]
      simp

/-- Witness for C1: in a source holding only `name`, the optional key `age`
is skipped without an error and the destination keeps its zero value. -/
theorem c1_absent_key_policy_witness :
    (Using (MapExtractor.Get [("name", "John")]) [WithOptionalKeys ["age"]]).With "age" AsUint64 0
      = (Using (MapExtractor.Get [("name", "John")]) [WithOptionalKeys ["age"]], 0) :=
  (c1_absent_key_policy (Using (MapExtractor.Get [("name", "John")]) [WithOptionalKeys ["age"]])
    "age" AsUint64 0 (by decide)).1 (by decide)

/-- C2: for a key whose value is present but rejected by the converter, With
and WithOptional both append exactly one convert error tagged with that key,
whatever the construction-time optional set is — optionality never
suppresses conversion failures. -/
theorem c2_conversion_error_not_suppressed {α : Type} (ec : Extractor) (key s : String)
    (conv : Converter α) (dest : α) (e : GoError)
    (hget : ec.extractor key = Except.ok s) (hconv : conv s = Except.error e) :
    ec.With key conv dest = ({ ec with errors := ec.errors ++ [NewConvertError key e] }, dest)
    ∧ ec.WithOptional key conv dest
        = ({ ec with errors := ec.errors ++ [NewConvertError key e] }, dest)
    ∧ ∀ keys : List String,
        Extractor.With { ec with optionalKeys := keys } key conv dest
          = ({ ec with
                optionalKeys := keys
                errors := ec.errors ++ [NewConvertError key e] }, dest) := by
  refine ⟨?_, ?_, ?_⟩
  · rw [With_get_ok ec key s conv dest hget, hconv]
  · rw [WithOptional_get_ok ec key s conv dest hget, hconv]
  · intro keys
    rw [With_get_ok { ec with optionalKeys := keys } key s conv dest hget, hconv]

/-- Witness for C2: `abc` under AsUint64 records one convert error for the
key even though the key is in the optional set. -/
theorem c2_conversion_error_not_suppressed_witness :
    (Using (MapExtractor.Get [("age", "abc")]) [WithOptionalKeys ["age"]]).With "age" AsUint64 0
      = ({ Using (MapExtractor.Get [("age", "abc")]) [WithOptionalKeys ["age"]] with
            errors := (Using (MapExtractor.Get [("age", "abc")])
                [WithOptionalKeys ["age"]]).errors
              ++ [NewConvertError "age" (GoError.fmtMsgV "invalid uint value"
                    (GoError.numError "ParseUint" "abc" NumReason.invalidSyntax))] }, 0) :=
  (c2_conversion_error_not_suppressed
    (Using (MapExtractor.Get [("age", "abc")]) [WithOptionalKeys ["age"]]) "age" "abc"
    AsUint64 0
    (GoError.fmtMsgV "invalid uint value"
      (GoError.numError "ParseUint" "abc" NumReason.invalidSyntax))
    (by decide) (by decide)).1

/-- C3: for a key present with a well-formed value — in any source, and in
particular in a Map or Query source — With writes exactly the converted
value into the destination and appends no error. -/
theorem c3_present_wellformed_writes_exact {α : Type} (conv : Converter α) (dest : α)
    (key s : String) (v : α) (hconv : conv s = Except.ok v) :
    (∀ ec : Extractor, ec.extractor key = Except.ok s → ec.With key conv dest = (ec, v))
    ∧ (∀ (m : MapExtractor) (ks : List String), MapExtractor.Get m key = Except.ok s →
        (Using (MapExtractor.Get m) [WithOptionalKeys ks]).With key conv dest
          = (Using (MapExtractor.Get m) [WithOptionalKeys ks], v))
    ∧ (∀ (q : QueryExtractor) (ks : List String), q.Get key = Except.ok s →
        (Using q.Get [WithOptionalKeys ks]).With key conv dest
          = (Using q.Get [WithOptionalKeys ks], v)) := by
  have base : ∀ ec : Extractor, ec.extractor key = Except.ok s →
      ec.With key conv dest = (ec, v) := by
    intro ec hget
    rw [With_get_ok ec key s conv dest hget, hconv]
  exact ⟨base, fun m ks h => base _ h, fun q ks h => base _ h⟩

/-- Witness for C3: `id=123` under AsUint64 yields 123 and no error. -/
theorem c3_present_wellformed_writes_exact_witness :
    (Using (MapExtractor.Get [("id", "123")]) [WithOptionalKeys []]).With "id" AsUint64 0
      = (Using (MapExtractor.Get [("id", "123")]) [WithOptionalKeys []], 123) :=
  (c3_present_wellformed_writes_exact AsUint64 0 "id" "123" 123 (by decide)).2.1
    [("id", "123")] [] (by decide)

/-- C5: the error recorded for an absent key carries the sentinel ErrNotFound
itself as its cause, so comparing the cause against the sentinel (decidable
value equality, or errors.Is) answers "failure was absence"; the cause of
every built-in conversion failure compares unequal to ErrNotFound under both
tests, so the two failure classes are distinguished without reading message
strings. -/
theorem c5_notfound_cause_comparable {α : Type} (ec : Extractor) (key : String)
    (conv : Converter α) (dest : α)
    (habs : ec.extractor key = Except.error GoError.errNotFound)
    (hnopt : isOptional ec key = false) :
    ((ec.With key conv dest).1.errors = ec.errors ++ [NewExtractError key GoError.errNotFound]
      ∧ (NewExtractError key GoError.errNotFound).err = GoError.errNotFound
      ∧ ((NewExtractError key GoError.errNotFound).err == GoError.errNotFound) = true
      ∧ goErrorsIs (NewExtractError key GoError.errNotFound).err GoError.errNotFound = true)
    ∧ (∀ s e, AsUint64 s = Except.error e →
        (e == GoError.errNotFound) = false ∧ goErrorsIs e GoError.errNotFound = false)
    ∧ (∀ s e, AsInt64 s = Except.error e →
        (e == GoError.errNotFound) = false ∧ goErrorsIs e GoError.errNotFound = false)
    ∧ (∀ s e, AsFloat64 s = Except.error e →
        (e == GoError.errNotFound) = false ∧ goErrorsIs e GoError.errNotFound = false)
    ∧ (∀ s e, AsBool s = Except.error e →
        (e == GoError.errNotFound) = false ∧ goErrorsIs e GoError.errNotFound = false) := by
  refine ⟨?_, ?_, ?_, ?_, ?_⟩
  · rw [With_get_error ec key conv dest _ habs, goErrorsIs_notFound_self, hnopt]
    exact ⟨rfl, rfl, rfl, rfl⟩
  · intro s e h
    obtain ⟨e0, rfl⟩ := AsUint64_error_shape s e h
    exact fmtMsgV_notFound_false _ _
  · intro s e h
    obtain ⟨e0, rfl⟩ := AsInt64_error_shape s e h
    exact fmtMsgV_notFound_false _ _
  · intro s e h
    obtain ⟨e0, rfl⟩ := AsFloat64_error_shape s e h
    exact fmtMsgV_notFound_false _ _
  · intro s e h
    obtain ⟨e0, rfl⟩ := AsBool_error_shape s e h
    exact fmtMsgV_notFound_false _ _

/-- Witness for C5: the error recorded for the absent non-optional key `age`
has cause ErrNotFound. -/
theorem c5_notfound_cause_comparable_witness :
    ((Using (MapExtractor.Get []) [WithOptionalKeys []]).With "age" AsUint64 0).1.errors
      = (Using (MapExtractor.Get []) [WithOptionalKeys []]).errors
        ++ [NewExtractError "age" GoError.errNotFound] :=
  ((c5_notfound_cause_comparable (Using (MapExtractor.Get []) [WithOptionalKeys []]) "age"
    AsUint64 0 (by decide) (by decide)).1).1

theorem With_state (ec : Extractor) (key : String) (conv : Converter String) (dest : String) :
    (ec.With key conv dest).1 =
      { ec with errors := ec.errors
          ++ (callError ec.extractor ec.optionalKeys ⟨key, false, conv⟩).toList } := by
  cases hget : ec.extractor key with
  | error e =>
      rw [With_get_error ec key conv dest e hget]
      unfold callError
      simp only [hget, Bool.false_or]
      by_cases h : goErrorsIs e GoError.errNotFound && isOptional ec key
      · rw [if_pos h, if_pos (by simpa [isOptional] using h)]
        simp
      · rw [if_neg h, if_neg (by simpa [isOptional] using h)]
        rfl
  | ok s =>
      rw [With_get_ok ec key s conv dest hget]
      unfold callError
      simp only [hget]
      cases hc : conv s <;> simp [hc]

theorem WithOptional_state (ec : Extractor) (key : String) (conv : Converter String)
    (dest : String) :
    (ec.WithOptional key conv dest).1 =
      { ec with errors := ec.errors
          ++ (callError ec.extractor ec.optionalKeys ⟨key, true, conv⟩).toList } := by
  cases hget : ec.extractor key with
  | error e =>
      rw [WithOptional_get_error ec key conv dest e hget]
      unfold callError
      simp only [hget, Bool.true_or, Bool.and_true]
      by_cases h : goErrorsIs e GoError.errNotFound
      · rw [if_pos h, if_pos h]
        simp
      · rw [if_neg h, if_neg h]
        rfl
  | ok s =>
      rw [WithOptional_get_ok ec key s conv dest hget]
      unfold callError
      simp only [hget]
      cases hc : conv s <;> simp [hc]

theorem call_step_state (ec : Extractor) (c : Call) :
    (if c.useOptional then (ec.WithOptional c.key c.conv "").1
      else (ec.With c.key c.conv "").1) =
    { ec with errors := ec.errors ++ (callError ec.extractor ec.optionalKeys c).toList } := by
  obtain ⟨key, u, conv⟩ := c
  cases u
  · simpa using With_state ec key conv ""
  · simpa using WithOptional_state ec key conv ""

theorem runCalls_errors (ec : Extractor) (cs : List Call) :
    (runCalls ec cs).errors = ec.errors ++ cs.filterMap (callError ec.extractor ec.optionalKeys)
    := by
  induction cs generalizing ec with
  | nil => simp [runCalls]
  | cons c cs ih =>
      rw [runCalls, call_step_state ec c, ih]
      simp only [List.filterMap_cons]
      cases h : callError ec.extractor ec.optionalKeys c <;> simp [h]

theorem joinedFold_flatten (l : List Error) (a : GoError) :
    ∃ j, l.foldl (fun acc e => some (goJoinAcc acc (GoError.fmtKeyW e.key e.err))) (some a)
        = some j
      ∧ joinFlatten j = joinFlatten a ++ l.map (fun e => GoError.fmtKeyW e.key e.err) := by
  induction l generalizing a with
  | nil => exact ⟨a, rfl, by simp⟩
  | cons e l ih =>
      obtain ⟨j, hj, hf⟩ := ih (GoError.join2 a (GoError.fmtKeyW e.key e.err))
      refine ⟨j, ?_, ?_⟩
      · simpa [goJoinAcc] using hj
      · rw [hf]
        simp [joinFlatten]

theorem joinedErrors_flatten (ec : Extractor) (h : ec.errors ≠ []) :
    ∃ j, ec.JoinedErrors = some j
      ∧ joinFlatten j = ec.errors.map (fun e => GoError.fmtKeyW e.key e.err) := by
  unfold Extractor.JoinedErrors
  cases herr : ec.errors with
  | nil => exact absurd herr h
  | cons e l =>
      obtain ⟨j, hj, hf⟩ := joinedFold_flatten l (GoError.join1 (GoError.fmtKeyW e.key e.err))
      refine ⟨j, ?_, ?_⟩
      · simpa [goJoinAcc] using hj
      · rw [hf]
        simp [joinFlatten]

/-- C4: after any sequence of With/WithOptional calls, the recorded error
list is the initial list extended, in call order, by the (at most one) error
each call contributes; Errors returns exactly that list (or nil when empty);
and JoinedErrors combines the records, each keyed wrap in the same order. -/
theorem c4_error_order_invariant (ec : Extractor) (cs : List Call) :
    (runCalls ec cs).errors
        = ec.errors ++ cs.filterMap (callError ec.extractor ec.optionalKeys)
    ∧ (∀ ec2 : Extractor, ec2.errors ≠ [] → ec2.Errors = some ec2.errors)
    ∧ (∀ ec2 : Extractor, ec2.errors = [] → ec2.Errors = none ∧ ec2.JoinedErrors = none)
    ∧ (∀ ec2 : Extractor, ec2.errors ≠ [] →
        ∃ j, ec2.JoinedErrors = some j
          ∧ joinFlatten j = ec2.errors.map (fun e => GoError.fmtKeyW e.key e.err)) := by
  refine ⟨runCalls_errors ec cs, ?_, ?_, fun ec2 h => joinedErrors_flatten ec2 h⟩
  · intro ec2 h
    simp [Extractor.Errors, h]
  · intro ec2 h
    simp [Extractor.Errors, Extractor.JoinedErrors, h]

/-- Witness for C4: a present key, an absent optional key, an absent
mandatory key and a malformed value recorded in call order, and the joined
error flattening to the same order. -/
theorem c4_error_order_invariant_witness :
    (runCalls (Using (MapExtractor.Get [("id", "123"), ("bad", "x")]) [WithOptionalKeys ["opt"]])
        [⟨"id", false, AsString⟩, ⟨"opt", false, AsString⟩, ⟨"missing", false, AsString⟩,
          ⟨"bad", false, fun _ => Except.error (GoError.external "boom")⟩]).errors
      = (Using (MapExtractor.Get [("id", "123"), ("bad", "x")])
          [WithOptionalKeys ["opt"]]).errors
        ++ [⟨"id", false, AsString⟩, ⟨"opt", false, AsString⟩, ⟨"missing", false, AsString⟩,
            ⟨"bad", false, fun _ => Except.error (GoError.external "boom")⟩].filterMap
            (callError (Using (MapExtractor.Get [("id", "123"), ("bad", "x")])
                [WithOptionalKeys ["opt"]]).extractor
              (Using (MapExtractor.Get [("id", "123"), ("bad", "x")])
                [WithOptionalKeys ["opt"]]).optionalKeys)
    ∧ ∃ j, Extractor.JoinedErrors
          ⟨MapExtractor.Get [], [NewExtractError "a" GoError.errNotFound,
            NewConvertError "b" (GoError.external "x")], []⟩ = some j
        ∧ joinFlatten j
          = [NewExtractError "a" GoError.errNotFound,
              NewConvertError "b" (GoError.external "x")].map
              (fun e => GoError.fmtKeyW e.key e.err) :=
  ⟨(c4_error_order_invariant (Using (MapExtractor.Get [("id", "123"), ("bad", "x")])
      [WithOptionalKeys ["opt"]])
      [⟨"id", false, AsString⟩, ⟨"opt", false, AsString⟩, ⟨"missing", false, AsString⟩,
        ⟨"bad", false, fun _ => Except.error (GoError.external "boom")⟩]).1,
    (c4_error_order_invariant ⟨MapExtractor.Get [], [], []⟩ []).2.2.2
      ⟨MapExtractor.Get [], [NewExtractError "a" GoError.errNotFound,
        NewConvertError "b" (GoError.external "x")], []⟩ (by simp)⟩

theorem formGet_parsed (fe : FormExtractor) (req : GoRequest) (k : String)
    (hr : fe.Request = some req) (hp : fe.parsed = true) :
    (fe.Get k).2.1 = fe ∧ (fe.Get k).2.2 = 0 := by
  unfold FormExtractor.Get FormExtractor.ensureParsed
  rw [hr]
  simp only [hp, if_true]
  split <;> simp

theorem runGets_parsed (fe : FormExtractor) (req : GoRequest) (ks : List String)
    (hr : fe.Request = some req) (hp : fe.parsed = true) :
    runGets fe ks = (fe, 0) := by
  induction ks with
  | nil => rfl
  | cons k ks ih =>
      have h := formGet_parsed fe req k hr hp
      simp [runGets, h.1, h.2, ih]

theorem formGet_first_success (fe : FormExtractor) (req : GoRequest) (k : String)
    (hr : fe.Request = some req) (hp : fe.parsed = false)
    (hok : (if strHasPre req.contentType "multipart/form-data" then req.parseMultipartForm
        else req.parseForm) = Except.ok ()) :
    (fe.Get k).2.1 = { fe with parsed := true } ∧ (fe.Get k).2.2 = 1 := by
  unfold FormExtractor.Get FormExtractor.ensureParsed
  rw [hr]
  by_cases hm : strHasPre req.contentType "multipart/form-data"
  · rw [if_pos hm] at hok
    simp only [hp, hm, if_true, if_false, Bool.false_eq_true, hok]
    split <;> simp
  · rw [if_neg hm] at hok
    simp only [hp, hm, if_true, if_false, Bool.false_eq_true, hok]
    split <;> simp

theorem formGet_parse_fail (fe : FormExtractor) (req : GoRequest) (k : String) (e : GoError)
    (hr : fe.Request = some req) (hp : fe.parsed = false)
    (hfail : (if strHasPre req.contentType "multipart/form-data" then req.parseMultipartForm
        else req.parseForm) = Except.error e) :
    fe.Get k = (Except.error (GoError.join2 GoError.errRequestParseForm e), fe, 1) := by
  unfold FormExtractor.Get FormExtractor.ensureParsed
  rw [hr]
  by_cases hm : strHasPre req.contentType "multipart/form-data"
  · rw [if_pos hm] at hfail
    simp [hp, hm, hfail]
  · rw [if_neg hm] at hfail
    simp [hp, hm, hfail]

theorem runGets_parse_fail (fe : FormExtractor) (req : GoRequest) (ks : List String)
    (e : GoError) (hr : fe.Request = some req) (hp : fe.parsed = false)
    (hfail : (if strHasPre req.contentType "multipart/form-data" then req.parseMultipartForm
        else req.parseForm) = Except.error e) :
    runGets fe ks = (fe, ks.length) := by
  induction ks with
  | nil => rfl
  | cons k ks ih =>
      have h := formGet_parse_fail fe req k e hr hp hfail
      simp [runGets, h, ih, Nat.add_comm]

theorem goErrorsIs_join2_wrap (a b t : GoError) (h : goErrorsIs a t = true) :
    goErrorsIs (GoError.join2 a b) t = true := by
  simp only [goErrorsIs, h]
  simp

/-- C7: a form-backed source parses the body at most once — after a
successful parse the flag is set and later gets make no parse attempt, so a
run of n gets makes exactly one attempt; a parse failure is surfaced as the
distinguished form-parse error joined over the cause (matched by errors.Is
on ErrRequestParseForm), leaves the flag unset, and is re-attempted on every
subsequent get; and a nil request yields ErrRequestNil, distinct from
ErrNotFound. -/
theorem c7_form_parse_once (fe : FormExtractor) (req : GoRequest) (k : String)
    (ks : List String) :
    (fe.Request = some req → fe.parsed = true →
      (fe.Get k).2.1 = fe ∧ (fe.Get k).2.2 = 0)
    ∧ (fe.Request = some req → fe.parsed = false →
        (if strHasPre req.contentType "multipart/form-data" then req.parseMultipartForm
          else req.parseForm) = Except.ok () →
        (fe.Get k).2.1 = { fe with parsed := true } ∧ (runGets fe (k :: ks)).2 = 1)
    ∧ (∀ e : GoError, fe.Request = some req → fe.parsed = false →
        (if strHasPre req.contentType "multipart/form-data" then req.parseMultipartForm
          else req.parseForm) = Except.error e →
        (fe.Get k).1 = Except.error (GoError.join2 GoError.errRequestParseForm e)
        ∧ (fe.Get k).2.1 = fe
        ∧ goErrorsIs (GoError.join2 GoError.errRequestParseForm e)
            GoError.errRequestParseForm = true
        ∧ (runGets fe (k :: ks)).2 = (k :: ks).length)
    ∧ (fe.Request = none →
        (fe.Get k).1 = Except.error GoError.errRequestNil
        ∧ GoError.errRequestNil ≠ GoError.errNotFound
        ∧ goErrorsIs GoError.errRequestNil GoError.errNotFound = false) := by
  refine ⟨?_, ?_, ?_, ?_⟩
  · intro hr hp
    exact formGet_parsed fe req k hr hp
  · intro hr hp hok
    have h1 := formGet_first_success fe req k hr hp hok
    refine ⟨h1.1, ?_⟩
    have hr2 : ({ fe with parsed := true } : FormExtractor).Request = some req := hr
    simp [runGets, h1.1, h1.2, runGets_parsed { fe with parsed := true } req ks hr2 rfl]
  · intro e hr hp hfail
    have h1 := formGet_parse_fail fe req k e hr hp hfail
    refine ⟨by rw [h1], by rw [h1], goErrorsIs_join2_wrap _ _ _ (by decide), ?_⟩
    simp [runGets, h1, runGets_parse_fail fe req ks e hr hp hfail, Nat.add_comm]
  · intro hr
    unfold FormExtractor.Get
    rw [hr]
    exact ⟨rfl, by decide, by decide⟩

/-- Witness for C7: one url-encoded request parsed once across two gets, and
a nil-request get failing with ErrRequestNil. -/
theorem c7_form_parse_once_witness :
    ((FormExtractor.mk (some (GoRequest.mk "application/x-www-form-urlencoded"
          (Except.ok ()) (Except.ok ()) (fun _ => "John"))) false).Get "name").2.1
        = { FormExtractor.mk (some (GoRequest.mk "application/x-www-form-urlencoded"
              (Except.ok ()) (Except.ok ()) (fun _ => "John"))) false with parsed := true }
    ∧ (runGets (FormExtractor.mk (some (GoRequest.mk "application/x-www-form-urlencoded"
          (Except.ok ()) (Except.ok ()) (fun _ => "John"))) false) ["name", "age"]).2 = 1 :=
  (c7_form_parse_once (FormExtractor.mk (some (GoRequest.mk
      "application/x-www-form-urlencoded" (Except.ok ()) (Except.ok ()) (fun _ => "John")))
      false)
    (GoRequest.mk "application/x-www-form-urlencoded" (Except.ok ()) (Except.ok ())
      (fun _ => "John"))
    "name" ["age"]).2.1 rfl rfl (by decide)

/-- C9: the Map source decides found by key presence — a key mapped to the
empty string is found and yields the empty string — while the Query source
yields the first value of the key and reports NotFound exactly when the key
is absent or its first value is empty. -/
theorem c9_presence_vs_emptiness (m : MapExtractor) (q : QueryExtractor) (key : String) :
    (∀ p, m.find? (fun x => x.1 == key) = some p → MapExtractor.Get m key = Except.ok p.2)
    ∧ (m.find? (fun x => x.1 == key) = none →
        MapExtractor.Get m key = Except.error GoError.errNotFound)
    ∧ MapExtractor.Get [(key, "")] key = Except.ok ""
    ∧ (QueryExtractor.Get q key = Except.error GoError.errNotFound
        ↔ urlValuesGet q.Query key = "")
    ∧ (∀ (v : String) (vs : List String) (rest : UrlValues),
        q.Query = (key, v :: vs) :: rest → v ≠ "" →
        QueryExtractor.Get q key = Except.ok v) := by
  refine ⟨?_, ?_, ?_, ?_, ?_⟩
  · intro p hp
    unfold MapExtractor.Get
    rw [hp]
  · intro hnone
    unfold MapExtractor.Get
    rw [hnone]
  · simp [MapExtractor.Get]
  · unfold QueryExtractor.Get
    by_cases h : urlValuesGet q.Query key = ""
    · simp [h]
    · simp [h]
  · intro v vs rest hq hv
    unfold QueryExtractor.Get urlValuesGet
    rw [hq]
    simp [hv]

/-- Witness for C9: a map whose `name` key holds the empty string is found;
a query whose `name` key has empty first value is NotFound. -/
theorem c9_presence_vs_emptiness_witness :
    MapExtractor.Get [("name", "")] "name" = Except.ok ""
    ∧ QueryExtractor.Get ⟨[("name", ["", "x"])]⟩ "name"
        = Except.error GoError.errNotFound :=
  ⟨(c9_presence_vs_emptiness [("name", "")] ⟨[]⟩ "name").2.2.1,
    (c9_presence_vs_emptiness [] ⟨[("name", ["", "x"])]⟩ "name").2.2.2.1.mpr (by decide)⟩

/-- C10: the form source chooses the multipart parse path exactly when the
declared Content-Type begins with `multipart/form-data` — so a value
carrying parameters such as a boundary is still multipart, and the outcome
then depends only on the multipart parser; for any other content type the
url-encoded parser alone decides the outcome. -/
theorem c10_multipart_strategy_selection (fe : FormExtractor) (req : GoRequest) :
    (fe.Request = some req →
      fe.isMultipart = strHasPre req.contentType "multipart/form-data")
    ∧ (fe.parsed = false → strHasPre req.contentType "multipart/form-data" = true →
        ∀ pf, fe.ensureParsed { req with parseForm := pf } = fe.ensureParsed req)
    ∧ (fe.parsed = false → strHasPre req.contentType "multipart/form-data" = false →
        ∀ pm, fe.ensureParsed { req with parseMultipartForm := pm } = fe.ensureParsed req)
    ∧ strHasPre "multipart/form-data; boundary=X" "multipart/form-data" = true
    ∧ strHasPre "application/x-www-form-urlencoded" "multipart/form-data" = false := by
  refine ⟨?_, ?_, ?_, by decide, by decide⟩
  · intro hr
    unfold FormExtractor.isMultipart
    rw [hr]
  · intro hp hm pf
    unfold FormExtractor.ensureParsed
    simp [hp, hm]
  · intro hp hm pm
    unfold FormExtractor.ensureParsed
    simp [hp, hm]

/-- Witness for C10: a boundary-parameterized content type takes the
multipart path: the url-encoded parser outcome is irrelevant to
ensureParsed. -/
theorem c10_multipart_strategy_selection_witness :
    (FormExtractor.mk (some (GoRequest.mk "multipart/form-data; boundary=X" (Except.ok ())
        (Except.ok ()) (fun _ => ""))) false).ensureParsed
      { GoRequest.mk "multipart/form-data; boundary=X" (Except.ok ()) (Except.ok ())
          (fun _ => "") with parseForm := Except.error (GoError.external "urlencoded broken") }
    = (FormExtractor.mk (some (GoRequest.mk "multipart/form-data; boundary=X" (Except.ok ())
        (Except.ok ()) (fun _ => ""))) false).ensureParsed
      (GoRequest.mk "multipart/form-data; boundary=X" (Except.ok ()) (Except.ok ())
        (fun _ => "")) :=
  (c10_multipart_strategy_selection
    (FormExtractor.mk (some (GoRequest.mk "multipart/form-data; boundary=X" (Except.ok ())
      (Except.ok ()) (fun _ => ""))) false)
    (GoRequest.mk "multipart/form-data; boundary=X" (Except.ok ()) (Except.ok ())
      (fun _ => ""))).2.1 rfl (by decide) (Except.error (GoError.external "urlencoded broken"))

theorem parseDigits_eq (cs : List Char) (acc : Nat) :
    parseDigits cs acc
      = if cs.all isDigitChar
          then some (cs.foldl (fun a c => a * 10 + (c.toNat - 48)) acc)
          else none := by
  induction cs generalizing acc with
  | nil => simp [parseDigits]
  | cons c cs ih =>
      simp only [parseDigits, List.all_cons, List.foldl_cons]
      by_cases h : isDigitChar c
      · rw [if_pos h, ih]
        simp [h]
      · rw [if_neg h]
        simp [h]

theorem goParseUint_ok_iff (s : String) (n : Nat) :
    goParseUint s = Except.ok n ↔
      s.data ≠ [] ∧ s.data.all isDigitChar = true ∧ n < 2 ^ 64 ∧ n = digitsVal s.data := by
  unfold goParseUint
  rw [parseDigits_eq]
  by_cases he : s.data.isEmpty
  · have hnil : s.data = [] := by simpa using he
    simp [he, hnil]
  · have hne : s.data ≠ [] := by simpa using he
    rw [if_neg (by simpa using he)]
    by_cases hd : s.data.all isDigitChar
    · rw [if_pos hd]
      by_cases hlt : digitsVal s.data < 2 ^ 64
      · simp only [digitsVal] at hlt ⊢
        rw [if_pos hlt]
        constructor
        · intro h
          cases h
          exact ⟨hne, hd, hlt, rfl⟩
        · rintro ⟨-, -, -, rfl⟩
          rfl
      · simp only [digitsVal] at hlt ⊢
        rw [if_neg hlt]
        constructor
        · intro h
          cases h
        · rintro ⟨-, -, hbound, rfl⟩
          exact absurd hbound hlt
    · rw [if_neg hd]
      constructor
      · intro h
        cases h
      · rintro ⟨-, hdig, -, -⟩
        exact absurd hdig hd

theorem goParseUint_error_shape (s : String) (e : GoError)
    (h : goParseUint s = Except.error e) :
    ∃ r, e = GoError.numError "ParseUint" s r := by
  unfold goParseUint at h
  by_cases he : s.data.isEmpty
  · rw [if_pos he] at h
    cases h
    exact ⟨_, rfl⟩
  · rw [if_neg he] at h
    split at h
    · cases h
      exact ⟨_, rfl⟩
    · split at h
      · cases h
      · cases h
        exact ⟨_, rfl⟩

theorem goParseIntCore_ok_iff (s : String) (neg : Bool) (rest : List Char) (i : Int) :
    goParseIntCore s neg rest = Except.ok i ↔
      rest ≠ [] ∧ rest.all isDigitChar = true ∧
        (if neg then i = -(digitsVal rest : Int) ∧ digitsVal rest ≤ 2 ^ 63
          else i = (digitsVal rest : Int) ∧ digitsVal rest < 2 ^ 63) := by
  unfold goParseIntCore
  by_cases he : rest.isEmpty
  · have h0 : rest = [] := by simpa using he
    simp [he, h0]
  · have hne : rest ≠ [] := by simpa using he
    rw [if_neg (by simpa using he), parseDigits_eq]
    by_cases hd : rest.all isDigitChar
    · rw [if_pos hd]
      have hfold : rest.foldl (fun a c => a * 10 + (c.toNat - 48)) 0 = digitsVal rest := rfl
      rw [hfold]
      cases neg with
      | false =>
          simp only [Bool.not_false, Bool.true_and, Bool.false_and, Bool.false_eq_true,
            if_false, decide_eq_true_eq]
          by_cases h64 : digitsVal rest ≥ 2 ^ 64
          · rw [if_pos h64]
            constructor
            · intro h
              cases h
            · rintro ⟨-, -, -, hlt⟩
              omega
          · rw [if_neg h64]
            by_cases h63 : digitsVal rest ≥ 2 ^ 63
            · rw [if_pos h63]
              constructor
              · intro h
                cases h
              · rintro ⟨-, -, -, hlt⟩
                omega
            · rw [if_neg h63]
              constructor
              · intro h
                cases h
                exact ⟨hne, hd, rfl, by omega⟩
              · rintro ⟨-, -, rfl, -⟩
                rfl
      | true =>
          simp only [Bool.not_true, Bool.false_and, Bool.true_and, Bool.false_eq_true,
            if_false, if_true, decide_eq_true_eq]
          by_cases h64 : digitsVal rest ≥ 2 ^ 64
          · rw [if_pos h64]
            constructor
            · intro h
              cases h
            · rintro ⟨-, -, -, hle⟩
              omega
          · rw [if_neg h64]
            by_cases h63 : digitsVal rest > 2 ^ 63
            · rw [if_pos h63]
              constructor
              · intro h
                cases h
              · rintro ⟨-, -, -, hle⟩
                omega
            · rw [if_neg h63]
              constructor
              · intro h
                cases h
                exact ⟨hne, hd, rfl, by omega⟩
              · rintro ⟨-, -, rfl, -⟩
                rfl
    · rw [if_neg hd]
      constructor
      · intro h
        cases h
      · rintro ⟨-, hdig, -⟩
        exact absurd hdig hd

theorem goParseInt_eq_nil (s : String) (h : s.data = []) :
    goParseInt s = Except.error (GoError.numError "ParseInt" s NumReason.invalidSyntax) := by
  unfold goParseInt
  rw [h]

theorem goParseInt_eq_cons (s : String) (c : Char) (cs : List Char) (h : s.data = c :: cs) :
    goParseInt s = goParseIntCore s (c == '-') (if c == '+' || c == '-' then cs else c :: cs)
    := by
  unfold goParseInt
  rw [h]

theorem goParseInt_ok_iff (s : String) (i : Int) :
    goParseInt s = Except.ok i ↔
      ∃ cs : List Char, cs ≠ [] ∧ cs.all isDigitChar = true ∧
        ((s.data = cs ∧ i = (digitsVal cs : Int) ∧ digitsVal cs < 2 ^ 63)
          ∨ (s.data = '+' :: cs ∧ i = (digitsVal cs : Int) ∧ digitsVal cs < 2 ^ 63)
          ∨ (s.data = '-' :: cs ∧ i = -(digitsVal cs : Int) ∧ digitsVal cs ≤ 2 ^ 63)) := by
  cases hsd : s.data with
  | nil =>
      constructor
      · intro h
        rw [goParseInt_eq_nil s hsd] at h
        cases h
      · rintro ⟨cs, hne, hd, (⟨hcs, -, -⟩ | ⟨hcs, -, -⟩ | ⟨hcs, -, -⟩)⟩ <;> cases hcs
        exact absurd rfl hne
  | cons c cs0 =>
      rw [goParseInt_eq_cons s c cs0 hsd]
      by_cases hplus : c = '+'
      · subst hplus
        rw [show (('+' : Char) == '+' || ('+' : Char) == '-') = true from rfl]
        rw [if_pos rfl, show (('+' : Char) == '-') = false from rfl]
        rw [goParseIntCore_ok_iff, if_neg (show ¬((false : Bool) = true) by simp)]
        constructor
        · rintro ⟨hne, hd, hv, hb⟩
          exact ⟨cs0, hne, hd, Or.inr (Or.inl ⟨rfl, hv, hb⟩)⟩
        · rintro ⟨cs, hne, hd, (⟨hcs, hv, hb⟩ | ⟨hcs, hv, hb⟩ | ⟨hcs, hv, hb⟩)⟩
          · exfalso
            cases hcs
            simp [isDigitChar] at hd
          · cases hcs
            exact ⟨hne, hd, hv, hb⟩
          · cases hcs
      · by_cases hminus : c = '-'
        · subst hminus
          rw [show (('-' : Char) == '+' || ('-' : Char) == '-') = true from rfl]
          rw [if_pos rfl, show (('-' : Char) == '-') = true from rfl]
          rw [goParseIntCore_ok_iff, if_pos (show ((true : Bool) = true) from rfl)]
          constructor
          · rintro ⟨hne, hd, hv, hb⟩
            exact ⟨cs0, hne, hd, Or.inr (Or.inr ⟨rfl, hv, hb⟩)⟩
          · rintro ⟨cs, hne, hd, (⟨hcs, hv, hb⟩ | ⟨hcs, hv, hb⟩ | ⟨hcs, hv, hb⟩)⟩
            · exfalso
              cases hcs
              simp [isDigitChar] at hd
            · cases hcs
            · cases hcs
              exact ⟨hne, hd, hv, hb⟩
        · have hq : (c == '+' || c == '-') = false := by
            simp [hplus, hminus]
          rw [hq, if_neg (show ¬((false : Bool) = true) by simp),
            show (c == '-') = false from by simp [hminus]]
          rw [goParseIntCore_ok_iff, if_neg (show ¬((false : Bool) = true) by simp)]
          constructor
          · rintro ⟨hne, hd, hv, hb⟩
            exact ⟨c :: cs0, by simp, hd, Or.inl ⟨rfl, hv, hb⟩⟩
          · rintro ⟨cs, hne, hd, (⟨hcs, hv, hb⟩ | ⟨hcs, hv, hb⟩ | ⟨hcs, hv, hb⟩)⟩
            · cases hcs
              refine ⟨?_, hd, hv, hb⟩
              simp
            · cases hcs
              exact absurd rfl hplus
            · cases hcs
              exact absurd rfl hminus

/-- C6: evaluation of the code at the failing input.  ReturnInt64 called with
key `height` against a source holding `height = 7` does not behave like a
manual With on `height`: the source (src/unnamed/part_001 line 64) passes the
literal `"age"` instead of the key parameter, so it returns the zero value
and records a NotFound extract error tagged `age`, while the manual With on
`height` writes 7 and records nothing. -/
theorem c6_return_int64_ignores_key :
    (ReturnInt64 (Using (MapExtractor.Get [("height", "7")]) []) "height").2 = 0
    ∧ (ReturnInt64 (Using (MapExtractor.Get [("height", "7")]) []) "height").1.errors
        = [NewExtractError "age" GoError.errNotFound]
    ∧ ((Using (MapExtractor.Get [("height", "7")]) []).With "height" AsInt64 0).2 = 7
    ∧ ((Using (MapExtractor.Get [("height", "7")]) []).With "height" AsInt64 0).1.errors
        = [] := by
  decide

theorem digitVal_floatChar (base : Nat) (c : Char) (d : Nat)
    (h : digitVal base c = some d) : floatChar c = true := by
  unfold digitVal at h
  split_ifs at h with h1 h2
  · simp [floatChar, h1]
  · have hx : isHexLetter c = true := by
      simp only [Bool.and_eq_true] at h2
      exact h2.2
    unfold isHexLetter at hx
    simp only [Bool.and_eq_true, decide_eq_true_eq] at hx
    have h3 : lowerC c ≤ 'z' := le_trans hx.2 (by decide)
    simp [floatChar, Bool.or_eq_true, Bool.and_eq_true, decide_eq_true_eq, hx.1, h3]

theorem mantLoop_split (base : Nat) (cs : List Char) : ∀ st : MantState,
    ∃ pre, cs = pre ++ (mantLoop base cs st).2 ∧ ∀ c ∈ pre, floatChar c = true := by
  induction cs with
  | nil =>
      intro st
      exact ⟨[], by simp [mantLoop], by simp⟩
  | cons c0 cs ih =>
      intro st
      by_cases hu : (c0 == '_') = true
      · have heq : mantLoop base (c0 :: cs) st
            = mantLoop base cs { st with underscores := true } := by
          simp [mantLoop, hu]
        obtain ⟨pre, hpre, hall⟩ := ih { st with underscores := true }
        refine ⟨c0 :: pre, by rw [heq, List.cons_append, ← hpre], ?_⟩
        intro c hc
        rcases List.mem_cons.mp hc with rfl | hc
        · have h0 : c = '_' := by simpa using hu
          subst h0
          decide
        · exact hall c hc
      · by_cases hdot : (c0 == '.') = true
        · by_cases hsaw : st.sawdot = true
          · refine ⟨[], ?_, by simp⟩
            have heq : mantLoop base (c0 :: cs) st = (st, c0 :: cs) := by
              simp [mantLoop, hu, hdot, hsaw]
            rw [heq]
            rfl
          · have heq : mantLoop base (c0 :: cs) st
                = mantLoop base cs { st with sawdot := true } := by
              simp [mantLoop, hu, hdot, hsaw]
            obtain ⟨pre, hpre, hall⟩ := ih { st with sawdot := true }
            refine ⟨c0 :: pre, by rw [heq, List.cons_append, ← hpre], ?_⟩
            intro c hc
            rcases List.mem_cons.mp hc with rfl | hc
            · have h0 : c = '.' := by simpa using hdot
              subst h0
              decide
            · exact hall c hc
        · cases hdv : digitVal base c0 with
          | some d =>
              have heq : mantLoop base (c0 :: cs) st = mantLoop base cs
                  { st with
                    acc := st.acc * base + d,
                    fracDigits := if st.sawdot then st.fracDigits + 1 else st.fracDigits,
                    sawdigits := true } := by
                simp [mantLoop, hu, hdot, hdv]
              obtain ⟨pre, hpre, hall⟩ := ih
                { st with
                  acc := st.acc * base + d,
                  fracDigits := if st.sawdot then st.fracDigits + 1 else st.fracDigits,
                  sawdigits := true }
              refine ⟨c0 :: pre, by rw [heq, List.cons_append, ← hpre], ?_⟩
              intro c hc
              rcases List.mem_cons.mp hc with rfl | hc
              · exact digitVal_floatChar base c d hdv
              · exact hall c hc
          | none =>
              refine ⟨[], ?_, by simp⟩
              have heq : mantLoop base (c0 :: cs) st = (st, c0 :: cs) := by
                simp [mantLoop, hu, hdot, hdv]
              rw [heq]
              rfl

theorem expLoop_split (cs : List Char) : ∀ (e : Nat) (u : Bool),
    ∃ pre, cs = pre ++ (expLoop cs e u).2.2 ∧ ∀ c ∈ pre, floatChar c = true := by
  induction cs with
  | nil =>
      intro e u
      exact ⟨[], by simp [expLoop], by simp⟩
  | cons c0 cs ih =>
      intro e u
      by_cases hd : isDigitChar c0 = true
      · have heq : expLoop (c0 :: cs) e u = expLoop cs (e * 10 + (c0.toNat - 48)) u := by
          simp [expLoop, hd]
        obtain ⟨pre, hpre, hall⟩ := ih (e * 10 + (c0.toNat - 48)) u
        refine ⟨c0 :: pre, by rw [heq, List.cons_append, ← hpre], ?_⟩
        intro c hc
        rcases List.mem_cons.mp hc with rfl | hc
        · simp [floatChar, hd]
        · exact hall c hc
      · by_cases hu : (c0 == '_') = true
        · have heq : expLoop (c0 :: cs) e u = expLoop cs e true := by
            simp [expLoop, hd, hu]
          obtain ⟨pre, hpre, hall⟩ := ih e true
          refine ⟨c0 :: pre, by rw [heq, List.cons_append, ← hpre], ?_⟩
          intro c hc
          rcases List.mem_cons.mp hc with rfl | hc
          · have h0 : c = '_' := by simpa using hu
            subst h0
            decide
          · exact hall c hc
        · refine ⟨[], ?_, by simp⟩
          have heq : expLoop (c0 :: cs) e u = (e, u, c0 :: cs) := by
            simp [expLoop, hd, hu]
          rw [heq]
          rfl

theorem readExpBody_split (esign : Int) (body : List Char) (u : Bool)
    (r : Bool × Int × Bool × List Char) (h : readExpBody esign body u = some r) :
    ∃ pre, body = pre ++ r.2.2.2 ∧ ∀ c ∈ pre, floatChar c = true := by
  cases body with
  | nil =>
      simp only [readExpBody] at h
      cases h
  | cons b bs =>
      by_cases hb : isDigitChar b = true
      · simp only [readExpBody] at h
        rw [if_pos hb] at h
        cases h
        obtain ⟨pre, hpre, hall⟩ := expLoop_split (b :: bs) 0 u
        exact ⟨pre, hpre, hall⟩
      · simp only [readExpBody] at h
        rw [if_neg hb] at h
        cases h

theorem readExp_split (expChar : Char) (hlo : 'a' ≤ expChar) (hhi : expChar ≤ 'z')
    (cs : List Char) (u : Bool) (r : Bool × Int × Bool × List Char)
    (h : readExp expChar cs u = some r) :
    ∃ pre, cs = pre ++ r.2.2.2 ∧ ∀ c ∈ pre, floatChar c = true := by
  cases cs with
  | nil =>
      simp only [readExp] at h
      cases h
      exact ⟨[], by simp, by simp⟩
  | cons c0 cs1 =>
      by_cases hexp : (lowerC c0 == expChar) = true
      · have hc0 : floatChar c0 = true := by
          have he : lowerC c0 = expChar := by simpa using hexp
          simp [floatChar, Bool.or_eq_true, Bool.and_eq_true, decide_eq_true_eq, he,
            hlo, hhi]
        cases cs1 with
        | nil =>
            simp only [readExp] at h
            rw [if_pos hexp] at h
            cases h
        | cons d ds =>
            simp only [readExp] at h
            rw [if_pos hexp] at h
            by_cases hsign : (d == '+' || d == '-') = true
            · rw [if_pos hsign] at h
              have hdchar : floatChar d = true := by
                rcases (by simpa using hsign : d = '+' ∨ d = '-') with rfl | rfl <;> decide
              obtain ⟨pre, hpre, hall⟩ := readExpBody_split _ _ _ _ h
              refine ⟨c0 :: d :: pre, ?_, ?_⟩
              · simpa using congrArg (fun l => c0 :: d :: l) hpre
              · intro c hc
                rcases List.mem_cons.mp hc with rfl | hc
                · exact hc0
                · rcases List.mem_cons.mp hc with rfl | hc
                  · exact hdchar
                  · exact hall c hc
            · rw [if_neg hsign] at h
              obtain ⟨pre, hpre, hall⟩ := readExpBody_split _ _ _ _ h
              refine ⟨c0 :: pre, ?_, ?_⟩
              · simpa using congrArg (fun l => c0 :: l) hpre
              · intro c hc
                rcases List.mem_cons.mp hc with rfl | hc
                · exact hc0
                · exact hall c hc
      · simp only [readExp] at h
        rw [if_neg hexp] at h
        cases h
        exact ⟨[], by simp, by simp⟩

theorem readFloatBody_chars (neg : Bool) (orig : List Char) (base : Nat)
    (afterBase : List Char) (v : FloatVal) (hbase : base = 10 ∨ base = 16)
    (h : readFloatBody neg orig base afterBase = some v) :
    ∀ c ∈ afterBase, floatChar c = true := by
  simp only [readFloatBody] at h
  rcases hml : mantLoop base afterBase ⟨0, 0, false, false, false⟩ with ⟨st, rest⟩
  rw [hml] at h
  by_cases hsaw : (!st.sawdigits) = true
  · rw [if_pos hsaw] at h
    cases h
  · rw [if_neg hsaw] at h
    cases hre : readExp (if base == 16 then 'p' else 'e') rest st.underscores with
    | none =>
        simp only [hre] at h
        cases h
    | some q =>
        rcases q with ⟨hadExp, e, u2, rest2⟩
        simp only [hre] at h
        by_cases hb1 : (base == 16 && !hadExp) = true
        · rw [if_pos hb1] at h
          cases h
        · rw [if_neg hb1] at h
          by_cases hb2 : (!rest2.isEmpty) = true
          · rw [if_pos hb2] at h
            cases h
          · have hrest2 : rest2 = [] := by
              simpa using hb2
            have hlo : 'a' ≤ (if base == 16 then 'p' else 'e') := by
              by_cases hb : (base == 16) = true
              · rw [if_pos hb]
                decide
              · rw [if_neg hb]
                decide
            have hhi : (if base == 16 then 'p' else 'e') ≤ 'z' := by
              by_cases hb : (base == 16) = true
              · rw [if_pos hb]
                decide
              · rw [if_neg hb]
                decide
            obtain ⟨pre1, hpre1, hall1⟩ := mantLoop_split base afterBase ⟨0, 0, false, false, false⟩
            rw [hml] at hpre1
            obtain ⟨pre2, hpre2, hall2⟩ :=
              readExp_split (if base == 16 then 'p' else 'e') hlo hhi rest st.underscores
                (hadExp, e, u2, rest2) hre
            intro c hc
            rw [hpre1] at hc
            rcases List.mem_append.mp hc with hc1 | hc2
            · exact hall1 c hc1
            · rw [hpre2] at hc2
              rcases List.mem_append.mp hc2 with hc3 | hc4
              · exact hall2 c hc3
              · rw [hrest2] at hc4
                simp at hc4

theorem readFloatSigned_chars (neg : Bool) (orig afterSign : List Char) (v : FloatVal)
    (h : readFloatSigned neg orig afterSign = some v) :
    ∀ c ∈ afterSign, floatChar c = true := by
  cases afterSign with
  | nil => simp
  | cons a tail =>
      cases tail with
      | nil =>
          simp only [readFloatSigned] at h
          exact readFloatBody_chars neg orig 10 [a] v (Or.inl rfl) h
      | cons b rest2 =>
          simp only [readFloatSigned] at h
          by_cases hx : (a == '0' && lowerC b == 'x' && !rest2.isEmpty) = true
          · rw [if_pos hx] at h
            have hbody := readFloatBody_chars neg orig 16 rest2 v (Or.inr rfl) h
            have hx2 := hx
            simp only [Bool.and_eq_true, beq_iff_eq] at hx2
            intro c hc
            rcases List.mem_cons.mp hc with rfl | hc
            · have h0 : c = '0' := hx2.1.1
              subst h0
              decide
            · rcases List.mem_cons.mp hc with rfl | hc
              · have hb2 : ('a' ≤ lowerC c && lowerC c ≤ 'z') = true := by
                  rw [hx2.1.2]
                  decide
                unfold floatChar
                rw [hb2, Bool.or_true]
              · exact hbody c hc
          · rw [if_neg hx] at h
            exact readFloatBody_chars neg orig 10 (a :: b :: rest2) v (Or.inl rfl) h

theorem readFloatAll_chars (cs : List Char) (v : FloatVal)
    (h : readFloatAll cs = some v) : ∀ c ∈ cs, floatChar c = true := by
  cases cs with
  | nil => simp
  | cons c0 rest0 =>
      simp only [readFloatAll] at h
      by_cases hs : (c0 == '+' || c0 == '-') = true
      · rw [if_pos hs] at h
        have hrest := readFloatSigned_chars _ _ _ _ h
        intro c hc
        rcases List.mem_cons.mp hc with rfl | hc
        · rcases (by simpa using hs : c = '+' ∨ c = '-') with rfl | rfl <;> decide
        · exact hrest c hc
      · rw [if_neg hs] at h
        exact readFloatSigned_chars _ _ _ _ h

theorem cpLenIC_full : ∀ (s p : List Char), (∀ q ∈ p, 'a' ≤ q ∧ q ≤ 'z') →
    cpLenIC s p = s.length → ∀ c ∈ s, floatChar c = true := by
  intro s
  induction s with
  | nil =>
      intro p hp h c hc
      simp at hc
  | cons c0 s ih =>
      intro p hp h
      cases p with
      | nil => simp [cpLenIC] at h
      | cons q p =>
          by_cases hq : (lowerC c0 == q) = true
          · simp [cpLenIC, hq] at h
            intro c hc
            rcases List.mem_cons.mp hc with rfl | hc
            · have hql := hp q (by simp)
              have hlc : lowerC c = q := by simpa using hq
              have hfc : ('a' ≤ lowerC c && lowerC c ≤ 'z') = true := by
                rw [hlc]
                simp only [Bool.and_eq_true, decide_eq_true_eq]
                exact ⟨hql.1, hql.2⟩
              unfold floatChar
              rw [hfc, Bool.or_true]
            · exact ih p (fun x hx => hp x (by simp [hx])) (by omega) c hc
          · simp [cpLenIC, hq] at h

theorem special_full (cs : List Char) (v : FloatVal) (n : Nat)
    (h : special cs = some (v, n)) (hlen : n = cs.length) :
    ∀ c ∈ cs, floatChar c = true := by
  cases cs with
  | nil => simp [special] at h
  | cons c rest =>
      simp only [special] at h
      by_cases hsign : (c == '+' || c == '-') = true
      · rw [if_pos hsign] at h
        by_cases hn : (cpLenIC rest "infinity".data == 3
            || cpLenIC rest "infinity".data == 8) = true
        · rw [if_pos hn] at h
          cases h
          have hcp : cpLenIC rest "infinity".data = rest.length := by
            have hlit : ("infinity".data : List Char) = ['i', 'n', 'f', 'i', 'n', 'i', 't', 'y'] :=
              rfl
            rw [hlit]
            rw [List.length_cons] at hlen
            omega
          intro x hx
          rcases List.mem_cons.mp hx with rfl | hx
          · rcases (by simpa using hsign : x = '+' ∨ x = '-') with rfl | rfl <;> decide
          · exact cpLenIC_full rest "infinity".data (by decide) hcp x hx
        · rw [if_neg hn] at h
          cases h
      · by_cases hi : (c == 'i' || c == 'I') = true
        · rw [if_neg hsign, if_pos hi] at h
          by_cases hn : (cpLenIC (c :: rest) "infinity".data == 3
              || cpLenIC (c :: rest) "infinity".data == 8) = true
          · rw [if_pos hn] at h
            cases h
            exact cpLenIC_full (c :: rest) "infinity".data (by decide) hlen
          · rw [if_neg hn] at h
            cases h
        · by_cases hna : (c == 'n' || c == 'N') = true
          · rw [if_neg hsign, if_neg hi, if_pos hna] at h
            by_cases hn : (cpLenIC (c :: rest) "nan".data == 3) = true
            · rw [if_pos hn] at h
              cases h
              have hcp : cpLenIC (c :: rest) "nan".data = (c :: rest).length := by
                have h3 : cpLenIC (c :: rest) "nan".data = 3 := by simpa using hn
                omega
              exact cpLenIC_full (c :: rest) "nan".data (by decide) hcp
            · rw [if_neg hn] at h
              cases h
          · rw [if_neg hsign, if_neg hi, if_neg hna] at h
            cases h

theorem goParseFloat_ok_chars (s : String) (v : FloatVal)
    (h : goParseFloat s = Except.ok v) : ∀ c ∈ s.data, floatChar c = true := by
  unfold goParseFloat at h
  cases hsp : special s.data with
  | none =>
      simp only [hsp] at h
      cases hra : readFloatAll s.data with
      | none =>
          simp only [hra] at h
          cases h
      | some v0 =>
          simp only [hra] at h
          cases h
          exact readFloatAll_chars s.data _ hra
  | some p =>
      rcases p with ⟨v0, n⟩
      simp only [hsp] at h
      by_cases hn : (n == s.data.length) = true
      · exact special_full s.data v0 n hsp (by simpa using hn)
      · rw [if_neg hn] at h
        cases h

theorem goParseFloat_error_shape (s : String) (e : GoError)
    (h : goParseFloat s = Except.error e) :
    e = GoError.numError "ParseFloat" s NumReason.invalidSyntax := by
  unfold goParseFloat at h
  cases hsp : special s.data with
  | none =>
      simp only [hsp] at h
      cases hra : readFloatAll s.data with
      | none =>
          simp only [hra] at h
          cases h
          rfl
      | some v0 =>
          simp only [hra] at h
          cases h
  | some p =>
      rcases p with ⟨v0, n⟩
      simp only [hsp] at h
      by_cases hn : (n == s.data.length) = true
      · rw [if_pos hn] at h
        cases h
      · rw [if_neg hn] at h
        cases h
        rfl

theorem goParseIntCore_error_shape (s : String) (neg : Bool) (rest : List Char) (e : GoError)
    (h : goParseIntCore s neg rest = Except.error e) :
    ∃ r, e = GoError.numError "ParseInt" s r := by
  unfold goParseIntCore at h
  by_cases he : rest.isEmpty
  · rw [if_pos he] at h
    cases h
    exact ⟨_, rfl⟩
  · rw [if_neg he] at h
    cases hp : parseDigits rest 0 with
    | none =>
        simp only [hp] at h
        cases h
        exact ⟨_, rfl⟩
    | some un =>
        simp only [hp] at h
        by_cases h1 : un ≥ 2 ^ 64
        · rw [if_pos h1] at h
          cases h
          exact ⟨_, rfl⟩
        · rw [if_neg h1] at h
          by_cases h2 : (!neg && un ≥ 2 ^ 63) = true
          · rw [if_pos h2] at h
            cases h
            exact ⟨_, rfl⟩
          · rw [if_neg h2] at h
            by_cases h3 : (neg && un > 2 ^ 63) = true
            · rw [if_pos h3] at h
              cases h
              exact ⟨_, rfl⟩
            · rw [if_neg h3] at h
              cases h

theorem goParseInt_error_shape (s : String) (e : GoError)
    (h : goParseInt s = Except.error e) :
    ∃ r, e = GoError.numError "ParseInt" s r := by
  cases hsd : s.data with
  | nil =>
      rw [goParseInt_eq_nil s hsd] at h
      cases h
      exact ⟨_, rfl⟩
  | cons c cs0 =>
      rw [goParseInt_eq_cons s c cs0 hsd] at h
      exact goParseIntCore_error_shape s _ _ e h

theorem goParseBool_ok_iff (s : String) (b : Bool) :
    goParseBool s = Except.ok b ↔
      (b = true ∧ (s = "1" ∨ s = "t" ∨ s = "T" ∨ s = "true" ∨ s = "TRUE" ∨ s = "True"))
      ∨ (b = false ∧ (s = "0" ∨ s = "f" ∨ s = "F" ∨ s = "false" ∨ s = "FALSE"
          ∨ s = "False")) := by
  unfold goParseBool
  by_cases h1 : (s == "1" || s == "t" || s == "T" || s == "true" || s == "TRUE"
      || s == "True") = true
  · rw [if_pos h1]
    simp only [Bool.or_eq_true, beq_iff_eq] at h1
    constructor
    · intro h
      cases h
      exact Or.inl ⟨rfl, by tauto⟩
    · rintro (⟨rfl, -⟩ | ⟨rfl, h2⟩)
      · rfl
      · exfalso
        rcases h1 with ((((rfl | rfl) | rfl) | rfl) | rfl) | rfl <;>
          rcases h2 with h | h | h | h | h | h <;> exact absurd h (by decide)
  · rw [if_neg h1]
    by_cases h2 : (s == "0" || s == "f" || s == "F" || s == "false" || s == "FALSE"
        || s == "False") = true
    · rw [if_pos h2]
      simp only [Bool.or_eq_true, beq_iff_eq] at h1 h2
      constructor
      · intro h
        cases h
        exact Or.inr ⟨rfl, by tauto⟩
      · rintro (⟨rfl, hh⟩ | ⟨rfl, -⟩)
        · exact absurd (by tauto) h1
        · rfl
    · rw [if_neg h2]
      simp only [Bool.or_eq_true, beq_iff_eq] at h1 h2
      constructor
      · intro h
        cases h
      · rintro (⟨rfl, hh⟩ | ⟨rfl, hh⟩)
        · exact absurd (by tauto) h1
        · exact absurd (by tauto) h2

theorem goParseBool_error_shape (s : String) (e : GoError)
    (h : goParseBool s = Except.error e) :
    e = GoError.numError "ParseBool" s NumReason.invalidSyntax := by
  unfold goParseBool at h
  split_ifs at h
  · cases h
    rfl

theorem AsString_ok (s : String) : AsString s = Except.ok s := rfl

theorem AsUint64_ok_iff (s : String) (n : Nat) :
    AsUint64 s = Except.ok n ↔ goParseUint s = Except.ok n := by
  unfold AsUint64
  cases h : goParseUint s <;> simp [h]

theorem AsInt64_ok_iff (s : String) (i : Int) :
    AsInt64 s = Except.ok i ↔ goParseInt s = Except.ok i := by
  unfold AsInt64
  cases h : goParseInt s <;> simp [h]

theorem AsFloat64_ok_iff (s : String) (v : FloatVal) :
    AsFloat64 s = Except.ok v ↔ goParseFloat s = Except.ok v := by
  unfold AsFloat64
  cases h : goParseFloat s <;> simp [h]

theorem AsBool_ok_iff (s : String) (b : Bool) :
    AsBool s = Except.ok b ↔ goParseBool s = Except.ok b := by
  unfold AsBool
  cases h : goParseBool s <;> simp [h]

theorem AsUint64_error_of (s : String) (e : GoError) (h : goParseUint s = Except.error e) :
    AsUint64 s = Except.error (GoError.fmtMsgV "invalid uint value" e) := by
  unfold AsUint64
  rw [h]

theorem AsInt64_error_of (s : String) (e : GoError) (h : goParseInt s = Except.error e) :
    AsInt64 s = Except.error (GoError.fmtMsgV "invalid int value" e) := by
  unfold AsInt64
  rw [h]

theorem AsFloat64_error_of (s : String) (e : GoError) (h : goParseFloat s = Except.error e) :
    AsFloat64 s = Except.error (GoError.fmtMsgV "invalid float value" e) := by
  unfold AsFloat64
  rw [h]

theorem AsBool_error_of (s : String) (e : GoError) (h : goParseBool s = Except.error e) :
    AsBool s = Except.error (GoError.fmtMsgV "invalid bool value" e) := by
  unfold AsBool
  rw [h]

theorem With_conv_fail_dest {α : Type} (ec : Extractor) (key s : String) (conv : Converter α)
    (dest : α) (e : GoError) (hget : ec.extractor key = Except.ok s)
    (hconv : conv s = Except.error e) :
    (ec.With key conv dest).2 = dest := by
  rw [With_get_ok ec key s conv dest hget, hconv]

/-- C8: the built-in converters parse the entire raw string and nothing less.
AsUint64 succeeds exactly on nonempty all-digit strings below 2^64 with the
base-10 value; AsInt64 exactly on an optionally single-signed nonempty digit
string within the signed 64-bit cutoffs; AsBool exactly on the twelve
standard boolean literals; every string AsFloat64 accepts consists solely of
float-grammar characters, a set that excludes blanks and tabs — so no
converter trims or partially parses.  On failure each converter returns the
error that names the expected type and carries the native strconv error
(itself naming the parser and the full offending string), and the With call
leaves the destination unwritten; AsString always succeeds and copies the
raw value unchanged. -/
theorem c8_converters_total_parse :
    (∀ s, AsString s = Except.ok s)
    ∧ (∀ s n, AsUint64 s = Except.ok n ↔
        s.data ≠ [] ∧ s.data.all isDigitChar = true ∧ n < 2 ^ 64 ∧ n = digitsVal s.data)
    ∧ (∀ s i, AsInt64 s = Except.ok i ↔
        ∃ cs : List Char, cs ≠ [] ∧ cs.all isDigitChar = true ∧
          ((s.data = cs ∧ i = (digitsVal cs : Int) ∧ digitsVal cs < 2 ^ 63)
            ∨ (s.data = '+' :: cs ∧ i = (digitsVal cs : Int) ∧ digitsVal cs < 2 ^ 63)
            ∨ (s.data = '-' :: cs ∧ i = -(digitsVal cs : Int) ∧ digitsVal cs ≤ 2 ^ 63)))
    ∧ (∀ s b, AsBool s = Except.ok b ↔
        (b = true ∧ (s = "1" ∨ s = "t" ∨ s = "T" ∨ s = "true" ∨ s = "TRUE" ∨ s = "True"))
          ∨ (b = false ∧ (s = "0" ∨ s = "f" ∨ s = "F" ∨ s = "false" ∨ s = "FALSE"
              ∨ s = "False")))
    ∧ (∀ s v, AsFloat64 s = Except.ok v → ∀ c ∈ s.data, floatChar c = true)
    ∧ (floatChar ' ' = false ∧ floatChar '\t' = false ∧ isDigitChar ' ' = false)
    ∧ (∀ s e, goParseUint s = Except.error e →
        AsUint64 s = Except.error (GoError.fmtMsgV "invalid uint value" e)
          ∧ ∃ r, e = GoError.numError "ParseUint" s r)
    ∧ (∀ s e, goParseInt s = Except.error e →
        AsInt64 s = Except.error (GoError.fmtMsgV "invalid int value" e)
          ∧ ∃ r, e = GoError.numError "ParseInt" s r)
    ∧ (∀ s e, goParseFloat s = Except.error e →
        AsFloat64 s = Except.error (GoError.fmtMsgV "invalid float value" e)
          ∧ e = GoError.numError "ParseFloat" s NumReason.invalidSyntax)
    ∧ (∀ s e, goParseBool s = Except.error e →
        AsBool s = Except.error (GoError.fmtMsgV "invalid bool value" e)
          ∧ e = GoError.numError "ParseBool" s NumReason.invalidSyntax)
    ∧ (∀ (α : Type) (ec : Extractor) (key s : String) (conv : Converter α) (dest : α)
        (e : GoError), ec.extractor key = Except.ok s → conv s = Except.error e →
        (ec.With key conv dest).2 = dest) := by
  refine ⟨AsString_ok, ?_, ?_, ?_, ?_, ⟨by decide, by decide, by decide⟩, ?_, ?_, ?_, ?_, ?_⟩
  · intro s n
    exact (AsUint64_ok_iff s n).trans (goParseUint_ok_iff s n)
  · intro s i
    exact (AsInt64_ok_iff s i).trans (goParseInt_ok_iff s i)
  · intro s b
    exact (AsBool_ok_iff s b).trans (goParseBool_ok_iff s b)
  · intro s v h
    exact goParseFloat_ok_chars s v ((AsFloat64_ok_iff s v).mp h)
  · intro s e h
    exact ⟨AsUint64_error_of s e h, goParseUint_error_shape s e h⟩
  · intro s e h
    exact ⟨AsInt64_error_of s e h, goParseInt_error_shape s e h⟩
  · intro s e h
    exact ⟨AsFloat64_error_of s e h, goParseFloat_error_shape s e h⟩
  · intro s e h
    exact ⟨AsBool_error_of s e h, goParseBool_error_shape s e h⟩
  · intro α ec key s conv dest e hget hconv
    exact With_conv_fail_dest ec key s conv dest e hget hconv

/-- Witness for C8: the string converter copies a raw value verbatim, a
digit string parses to its base-10 value, and a space-prefixed numeral is
rejected with the typed conversion error wrapping the strconv failure. -/
theorem c8_converters_total_parse_witness :
    AsString "hello world" = Except.ok "hello world"
    ∧ AsUint64 "123" = Except.ok 123
    ∧ AsUint64 " 12" = Except.error (GoError.fmtMsgV "invalid uint value"
        (GoError.numError "ParseUint" " 12" NumReason.invalidSyntax)) :=
  ⟨c8_converters_total_parse.1 "hello world",
    (c8_converters_total_parse.2.1 "123" 123).mpr (by decide),
    (c8_converters_total_parse.2.2.2.2.2.2.1 " 12"
      (GoError.numError "ParseUint" " 12" NumReason.invalidSyntax) (by decide)).1⟩

end ValueExtractor
